import Mathlib

/-!
Verification of the job-match repository: a shallow embedding of the
skill-extraction, normalization, comparison and resume-tailoring code
(`src/extract_skills.py`, `src/tailor_resume_generic.py`) together with
theorems settling the specification's testable properties.

Text is modelled as `List Char` (Python `str`, ASCII fragment); Python
sets of strings are `Finset String`; the match percentage (a Python
float computed by exact small-integer division) is modelled as `ℚ`.
Python regular-expression constructs used by the source are embedded as
explicit functions over `List Char` whose semantics follow the regex
engine (leftmost scan, greedy repetition, word boundaries compare the
word-character class of the two surrounding positions).
-/

set_option maxHeartbeats 1600000

namespace JobMatch

/-! ### Character classes (ASCII, as used by the Python source)

Character classes are stated on `Char.toNat` so that facts about them
reduce to `Nat` arithmetic. -/

/-- Python whitespace class `\s` (ASCII): space, tab, newline, carriage
return, vertical tab, form feed. -/
def isSpacePy (c : Char) : Bool :=
  c.toNat = 32 || c.toNat = 9 || c.toNat = 10 || c.toNat = 13 || c.toNat = 11 || c.toNat = 12

/-- Lowercase ASCII letter `a`-`z`. -/
def isLowerAZ (c : Char) : Bool := 97 ≤ c.toNat && c.toNat ≤ 122

/-- Uppercase ASCII letter `A`-`Z`. -/
def isUpperAZ (c : Char) : Bool := 65 ≤ c.toNat && c.toNat ≤ 90

/-- ASCII digit `0`-`9`. -/
def isDigit09 (c : Char) : Bool := 48 ≤ c.toNat && c.toNat ≤ 57

/-- ASCII letter. -/
def isAlphaAZ (c : Char) : Bool := isLowerAZ c || isUpperAZ c

/-- Python regex word character `\w` (ASCII): letter, digit or underscore. -/
def isWordCh (c : Char) : Bool := isAlphaAZ c || isDigit09 c || c.toNat = 95

/-- The symbol characters `+ . # / -` that `normalize` keeps
(source comment: "keep + . # / - because of c++, node.js, c#, ci/cd"). -/
def isKeptSym (c : Char) : Bool :=
  c.toNat = 43 || c.toNat = 46 || c.toNat = 35 || c.toNat = 47 || c.toNat = 45

/-- Characters NOT replaced by a space in `normalize`:
the regex class `[a-z0-9\s\+\.\#\/\-]`. -/
def keepChar (c : Char) : Bool := isLowerAZ c || isDigit09 c || isSpacePy c || isKeptSym c

/-! ### String primitives shared by both Python files -/

/-- Python `str.lower()` (ASCII). -/
def lowerL (l : List Char) : List Char := l.map Char.toLower

/-- The substitution `re.sub(r"[^a-z0-9\s\+\.\#\/\-]", " ", text)`:
every character outside the kept class becomes a single space. -/
def filterChars (l : List Char) : List Char :=
  l.map (fun c => if keepChar c then c else ' ')

/-- Worker for `collapseWS`; the flag records whether the previous
input character was whitespace (in which case further whitespace is
absorbed into the single space already emitted). -/
def collapseAux : Bool → List Char → List Char
  | _, [] => []
  | b, c :: rest =>
    if isSpacePy c then
      if b then collapseAux true rest
      else ' ' :: collapseAux true rest
    else
      c :: collapseAux false rest

/-- The substitution `re.sub(r"\s+", " ", text)`: each maximal run of
whitespace becomes one space. -/
def collapseWS (l : List Char) : List Char := collapseAux false l

/-- Python `str.strip()`: drop leading and trailing whitespace. -/
def stripL (l : List Char) : List Char :=
  (((l.dropWhile isSpacePy).reverse.dropWhile isSpacePy).reverse : List Char)

/-- Python `str.rstrip()`. -/
def rstripL (l : List Char) : List Char :=
  ((l.reverse.dropWhile isSpacePy).reverse : List Char)

/-- `str.strip()` at `String` level. -/
def pyStrip (s : String) : String := String.mk (stripL s.data)

/-- Worker for Python `str.replace(k, v)` (all non-overlapping
occurrences, left to right). The counter holds how many characters of a
key occurrence already emitted as `v` remain to be consumed; on a match
at the current character, `v` is emitted and the remaining
`k.length - 1` matched characters are consumed. All replacement keys
used by the source are non-empty. -/
def replAux (k v : List Char) : List Char → Nat → List Char
  | [], _ => []
  | c :: rest, n =>
    match n with
    | m + 1 => replAux k v rest m
    | 0 =>
      if k.isPrefixOf (c :: rest) then v ++ replAux k v rest (k.length - 1)
      else c :: replAux k v rest 0

/-- Python `str.replace(k, v)`. -/
def pyReplace (k v l : List Char) : List Char := replAux k v l 0

/-- Python `str.splitlines()` (modelling only `\n` as the line break, the
only line break occurring in the embedded texts): interior empty lines are
kept, one trailing line break produces no trailing empty line. -/
def splitlinesL (l : List Char) : List (List Char) :=
  let parts := l.splitOn '\n'
  if l = [] then [] else if l.getLast? = some '\n' then parts.dropLast else parts

/-- Python `str.split()` with no argument: split on whitespace runs,
dropping empty pieces. -/
def splitWS (l : List Char) : List (List Char) :=
  (l.splitOnP isSpacePy).filter (fun w => w ≠ [])

/-- Python substring containment `needle in hay`. -/
def isSubstr (needle hay : List Char) : Bool :=
  (List.range (hay.length + 1)).any (fun i => needle.isPrefixOf (hay.drop i))

/-- Position `p` of `l` holds a word character (`false` out of range). -/
def wordAt (l : List Char) (p : Nat) : Bool :=
  match l.get? p with
  | some c => isWordCh c
  | none => false

/-- Python regex `\b` at position `p` of `l`: the word-character status
changes between positions `p - 1` and `p` (out-of-range counts as
non-word). -/
def boundaryAt (l : List Char) (p : Nat) : Bool :=
  (match p with
   | 0 => false
   | q + 1 => wordAt l q) != wordAt l p

/-- `re.search(rf"\b{re.escape(w)}\b", text)` succeeds: the literal `w`
occurs at some position with a word boundary on both sides. -/
def wbFound (w text : List Char) : Bool :=
  (List.range (text.length + 1)).any (fun i =>
    w.isPrefixOf (text.drop i) && boundaryAt text i && boundaryAt text (i + w.length))

/-- `re.findall` driver: scan left to right; at each position try the
single-match function; on a match, emit it and resume right after it
(matches of the embedded patterns are never empty), else advance one
position. Fuel `text.length + 2` covers every start position. -/
def findallScan (mAt : Nat → Option (List Char)) : Nat → Nat → List (List Char)
  | 0, _ => []
  | fuel + 1, p =>
    match mAt p with
    | some m => m :: findallScan mAt fuel (p + max m.length 1)
    | none => findallScan mAt fuel (p + 1)

/-- Adjacent-character relation used to state that a string has no two
adjacent whitespace characters (the shape of `collapseWS` output). -/
def spacedR (a b : Char) : Prop := isSpacePy a = false ∨ isSpacePy b = false

namespace ExtractSkills

/-- The `ALIASES` dict of `extract_skills.py`, in insertion order
(Python dicts preserve insertion order; `normalize` applies the
replacements in this order). -/
def ALIASES : List (String × String) :=
  [("js", "javascript"), ("ts", "typescript"), ("node js", "node.js"),
   ("golang", "go"), ("c sharp", "c#"), ("dot net", "dotnet"), ("asp net", "asp.net"),
   ("google cloud platform", "gcp"), ("google cloud", "gcp"), ("amazon web services", "aws"),
   ("ci cd", "ci/cd"), ("k8s", "kubernetes"), ("argocd", "argo cd"),
   ("pyspark", "spark"), ("spark sql", "spark"), ("gcs", "cloud storage")]

/-- All alias replacements, applied in dict order. -/
def aliasAllL (l : List Char) : List Char :=
  ALIASES.foldl (fun acc kv => pyReplace kv.1.data kv.2.data acc) l

/-- `STOPWORDS` (the words of the triple-quoted block, split on
whitespace; a Python `set`, modelled as a list used only for
membership). -/
def STOPWORDS : List String :=
  ["a", "an", "and", "are", "as", "at", "be", "been", "being", "by", "can", "could",
   "did", "do", "does", "doing", "for", "from", "had", "has", "have", "having",
   "he", "her", "hers", "him", "his", "i", "if", "in", "into", "is", "it", "its",
   "me", "my", "of", "on", "or", "our", "ours", "she", "so", "than", "that", "the",
   "their", "them", "they", "this", "those", "to", "was", "we", "were", "what",
   "when", "where", "which", "who", "why", "will", "with", "would", "you", "your"]

/-- `US_STATES`: the triple-quoted block split on whitespace, so
multi-word state names contribute their individual words (for example
"new", "hampshire"); duplicates arising from the split are kept (the
Python `set` has identical membership). -/
def US_STATES : List String :=
  ["alabama", "alaska", "arizona", "arkansas", "california", "colorado", "connecticut",
   "delaware", "florida", "georgia", "hawaii", "idaho", "illinois", "indiana", "iowa",
   "kansas", "kentucky", "louisiana", "maine", "maryland", "massachusetts", "michigan",
   "minnesota", "mississippi", "missouri", "montana", "nebraska", "nevada",
   "new", "hampshire", "new", "jersey", "new", "mexico", "new", "york",
   "north", "carolina", "north", "dakota", "ohio", "oklahoma", "oregon", "pennsylvania",
   "rhode", "island", "south", "carolina", "south", "dakota", "tennessee", "texas",
   "utah", "vermont", "virginia", "washington", "west", "virginia", "wisconsin", "wyoming"]

/-- `LEGAL_JUNK`: the triple-quoted block split on whitespace. -/
def LEGAL_JUNK : List String :=
  ["equal", "employment", "opportunity", "ordinances", "notice", "notices",
   "non-sales", "incentive", "pay", "plan", "qualifications", "legal", "state-specific"]

/-- `normalize` of `extract_skills.py`: lowercase, apply every alias
replacement in dict order, replace characters outside
`[a-z0-9\s\+\.\#\/\-]` with spaces, collapse whitespace runs to single
spaces, strip. -/
def normalizeL (l : List Char) : List Char :=
  stripL (collapseWS (filterChars (aliasAllL (lowerL l))))

/-- `normalize` at `String` level. -/
def normalize (s : String) : String := String.mk (normalizeL s.data)

/-- The alias pass at `String` level (used to state when `normalize`
is idempotent). -/
def aliasAll (s : String) : String := String.mk (aliasAllL s.data)

/-- The branch test of `extract_known_skills`:
`" " in skill or any(ch in skill for ch in ".#+/")`. -/
def usesContainment (skill : List Char) : Bool :=
  skill.contains ' ' ||
    skill.any (fun c => c.toNat = 46 || c.toNat = 35 || c.toNat = 43 || c.toNat = 47)

/-- One vocabulary entry is found in the text: substring containment for
entries with a space or one of `. # + /`, word-boundary regex search for
bare words. -/
def skillHit (text skill : List Char) : Bool :=
  if usesContainment skill then isSubstr skill text
  else wbFound skill text

/-- `extract_known_skills(text, skills)` of `extract_skills.py`: the set
of vocabulary entries found in the (caller-normalized) text. -/
def extract_known_skills (text : String) (skills : List String) : Finset String :=
  (skills.filter (fun s => skillHit text.data s.data)).toFinset

/-- `is_bad_token(tok)`: lowercase and strip, then reject tokens shorter
than 2 characters, stopwords, US state words, legal boilerplate words,
tokens ending in `.com`/`.io`/`.ai`, and purely numeric tokens. -/
def is_bad_token (tok : String) : Bool :=
  let t := stripL (lowerL tok.data)
  let ts := String.mk t
  decide (t.length < 2) ||
  STOPWORDS.contains ts || US_STATES.contains ts || LEGAL_JUNK.contains ts ||
  ".com".data.isSuffixOf t || ".io".data.isSuffixOf t || ".ai".data.isSuffixOf t ||
  (!t.isEmpty && t.all isDigit09)

/-- Single match of `\b[A-Za-z]{1,10}\d{1,4}\b` at position `i` (the
"tokens with digits" rule). Greedy repetition with the trailing `\b`
forces the letter block to be the entire letter run (a shorter take is
followed by a letter, not a digit) and the digit block to be the entire
digit run (a shorter take is followed by a digit, a word character). -/
def match1At (text : List Char) (i : Nat) : Option (List Char) :=
  if boundaryAt text i then
    let rest := text.drop i
    let letters := rest.takeWhile isAlphaAZ
    if 1 ≤ letters.length && letters.length ≤ 10 then
      let digits := (rest.drop letters.length).takeWhile isDigit09
      if 1 ≤ digits.length && digits.length ≤ 4 &&
          !wordAt text (i + letters.length + digits.length) then
        some (letters ++ digits)
      else none
    else none
  else none

/-- Single match of `\b[A-Za-z][A-Za-z0-9]*\.(?:js|net|io)\b` with
`re.IGNORECASE` at position `i` (the "tokens with dot" rule). The
greedy star must consume the whole alphanumeric run (`.` is not
alphanumeric), then one alternative can match (they are pairwise
non-prefix), then `\b` requires a non-word character. The matched text
keeps its original case. -/
def match2At (text : List Char) (i : Nat) : Option (List Char) :=
  if boundaryAt text i then
    let rest := text.drop i
    match rest.head? with
    | none => none
    | some c =>
      if isAlphaAZ c then
        let run := rest.takeWhile (fun d => isAlphaAZ d || isDigit09 d)
        if (rest.drop run.length).head? = some '.' then
          let afterDot := rest.drop (run.length + 1)
          (["js", "net", "io"].findSome? (fun suf =>
            let sl := suf.data.length
            if lowerL (afterDot.take sl) = suf.data && afterDot.length ≥ sl &&
                !wordAt text (i + run.length + 1 + sl) then
              some (rest.take (run.length + 1 + sl))
            else none))
        else none
      else none
  else none

/-- Single match of `\bC\+\+|C#\b` at position `i`. Note the
alternation binds loosely: the first alternative is `\bC\+\+` (no
trailing boundary) and the second is `C#\b` (no leading boundary; the
trailing `\b` after the non-word `#` demands a word character next). -/
def matchCppAt (text : List Char) (i : Nat) : Option (List Char) :=
  let rest := text.drop i
  if boundaryAt text i && "C++".data.isPrefixOf rest then some "C++".data
  else if "C#".data.isPrefixOf rest && boundaryAt text (i + 2) then some "C#".data
  else none

/-- Single match of `\b[A-Z]{2,6}\b` at position `i` (the "all-caps
acronym" rule): with both boundaries the match must be an entire
word-character run of 2 to 6 uppercase letters. -/
def match3At (text : List Char) (i : Nat) : Option (List Char) :=
  if boundaryAt text i then
    let caps := (text.drop i).takeWhile isUpperAZ
    if 2 ≤ caps.length && caps.length ≤ 6 && !wordAt text (i + caps.length) then
      some caps
    else none
  else none

/-- `extract_dynamic_tech_tokens(original_text)`: union of the four
findall rules on the original (non-normalized) text, each candidate
lowercased and kept only if not `is_bad_token`. -/
def extract_dynamic_tech_tokens (orig : String) : Finset String :=
  let t := orig.data
  let fuel := t.length + 2
  let toks := findallScan (match1At t) fuel 0 ++ findallScan (match2At t) fuel 0 ++
    findallScan (matchCppAt t) fuel 0 ++ findallScan (match3At t) fuel 0
  ((toks.map (fun w => String.mk (lowerL w))).filter (fun s => !is_bad_token s)).toFinset

/-- `dyn_shared = jd_dyn & resume_dyn` (line 141): dynamic tokens count
only when they appear in both documents. -/
def dyn_shared (jd resume : String) : Finset String :=
  extract_dynamic_tech_tokens jd ∩ extract_dynamic_tech_tokens resume

/-- `jd_skills = jd_known | dyn_shared` (line 143); the known skills are
extracted from the normalized text, as in lines 130-133. -/
def jd_skills (jd resume : String) (skills : List String) : Finset String :=
  extract_known_skills (normalize jd) skills ∪ dyn_shared jd resume

/-- `resume_skills = resume_known | dyn_shared` (line 144). -/
def resume_skills (jd resume : String) (skills : List String) : Finset String :=
  extract_known_skills (normalize resume) skills ∪ dyn_shared jd resume

/-- `matched = jd_skills & resume_skills` (line 146). -/
def matched (jd resume : String) (skills : List String) : Finset String :=
  jd_skills jd resume skills ∩ resume_skills jd resume skills

/-- `missing = jd_skills - resume_skills` (line 147). -/
def missing (jd resume : String) (skills : List String) : Finset String :=
  jd_skills jd resume skills \ resume_skills jd resume skills

/-- `match_percent = (len(matched) / len(jd_skills)) * 100 if jd_skills
else 0` (line 149), with the float division modelled exactly in `ℚ`. -/
def match_percent (jd resume : String) (skills : List String) : ℚ :=
  if jd_skills jd resume skills = ∅ then 0
  else ((matched jd resume skills).card : ℚ) / ((jd_skills jd resume skills).card : ℚ) * 100

end ExtractSkills

/-! ### Sorting helpers

Python `sorted` on strings compares code-point sequences, which is the
`String` linear order. -/

/-- Python `sorted` on a set of strings. -/
def sortFin (s : Finset String) : List String := s.sort (· ≤ ·)

/-- Insert into an ascending list. -/
def insertSorted (s : String) : List String → List String
  | [] => [s]
  | t :: rest => if s ≤ t then s :: t :: rest else t :: insertSorted s rest

/-- Python `sorted` on a list of strings (insertion sort). -/
def sortStrs : List String → List String
  | [] => []
  | s :: rest => insertSorted s (sortStrs rest)

namespace Tailor

/-! Embedding of `tailor_resume_generic.py`. Only the first definition
of each function is modelled: the fragment after the first `main`
(lines 396-471) is an unreachable leftover duplicate that even breaks
the file's syntax, and the claims cite the first definitions. -/

/-- `SAFE_ALWAYS_ADD` (a Python set used only for membership). -/
def SAFE_ALWAYS_ADD : List String := ["jupyter", "pandas", "data analysis", "etl", "elt"]

/-- `SAFE_BUSINESS_TERMS` (a Python set; the one comprehension iterating
it sorts its result, so modelling it as this list is order-safe). -/
def SAFE_BUSINESS_TERMS : List String :=
  ["stakeholders", "reporting", "dashboards", "documentation", "requirements",
   "quality", "automation", "monitoring", "compliance", "security"]

/-- `read_text(path)`: missing file yields `""`, otherwise the stripped
content. The file system is modelled by an `Option String` (the
possibly-absent content of the path read). -/
def read_text (file : Option String) : String :=
  match file with
  | none => ""
  | some content => pyStrip content

/-- `load_skills(path)`: strip and lowercase each line, drop blanks and
`#` comments, de-duplicate keeping first occurrences. -/
def dedupeKeep (seen : List String) : List String → List String
  | [] => []
  | s :: rest => if seen.contains s then dedupeKeep seen rest else s :: dedupeKeep (s :: seen) rest

/-- `load_skills(path)` over the modelled file content. -/
def load_skills (file : Option String) : List String :=
  let text := read_text file
  let kept := (splitlinesL text.data).filterMap (fun line =>
    let s := lowerL (stripL line)
    if s = [] || s.head? = some '#' then none else some (String.mk s))
  dedupeKeep [] kept

/-- `normalize` of `tailor_resume_generic.py`: lowercase, replace
characters outside `[a-z0-9\.\+\#\-\s/]` by spaces, collapse whitespace,
strip. (Same character class as the extractor's normalize, but no alias
rewriting.) -/
def normalize (s : String) : String :=
  String.mk (stripL (collapseWS (filterChars (lowerL s.data))))

/-- The branch test of this file's `extract_known_skills`: a space or
any of `. + # / -` selects containment. -/
def usesContainment (s : List Char) : Bool :=
  s.contains ' ' || s.any (fun c =>
    c.toNat = 46 || c.toNat = 43 || c.toNat = 35 || c.toNat = 47 || c.toNat = 45)

/-- `extract_known_skills(text, skills)` of `tailor_resume_generic.py`:
normalizes the text itself, skips empty vocabulary entries, containment
for phrase/symbol entries, word-boundary regex for single words. -/
def extract_known_skills (text : String) (skills : List String) : Finset String :=
  let t := (normalize text).data
  (skills.filter (fun s => s ≠ "" &&
    (if usesContainment s.data then isSubstr s.data t else wbFound s.data t))).toFinset

/-- Python `str.title()` (ASCII): uppercase every letter that follows a
non-letter, lowercase the other letters. -/
def titleAux : Bool → List Char → List Char
  | _, [] => []
  | prev, c :: rest =>
    if isAlphaAZ c then
      (if prev then Char.toLower c else Char.toUpper c) :: titleAux true rest
    else c :: titleAux false rest

/-- Python `str.title()` at `String` level. -/
def pyTitle (s : String) : String := String.mk (titleAux false s.data)

/-- The fixed candidate list of `guess_job_title`, in source order. -/
def titleCandidates : List String :=
  ["data engineer", "data analyst", "business analyst", "software engineer", "devops engineer",
   "cloud engineer", "project manager", "product manager", "accountant", "sales associate",
   "customer service", "marketing specialist", "hr specialist", "financial analyst"]

/-- `guess_job_title(jd_text)`: first candidate contained in the
lowercased text, title-cased; fallback `"Professional"`. -/
def guess_job_title (jd_text : String) : String :=
  match titleCandidates.find? (fun c => isSubstr c.data (lowerL jd_text.data)) with
  | some c => pyTitle c
  | none => "Professional"

/-- The email pattern's local-part class `[A-Za-z0-9._%+\-]`. -/
def isEmailLocalChar (c : Char) : Bool :=
  isAlphaAZ c || isDigit09 c || c.toNat = 46 || c.toNat = 95 || c.toNat = 37 ||
    c.toNat = 43 || c.toNat = 45

/-- The email pattern's domain class `[A-Za-z0-9.\-]`. -/
def isEmailDomChar (c : Char) : Bool :=
  isAlphaAZ c || isDigit09 c || c.toNat = 46 || c.toNat = 45

/-- Single match of `[A-Za-z0-9._%+\-]+@[A-Za-z0-9.\-]+\.[A-Za-z]{2,}`
at position `i`: the greedy local part is the whole class run (it cannot
shrink onto a `@`), the backtracking over the greedy domain run selects
the last `.` that is followed by at least two letters, and the trailing
letter block is the maximal letter run there. -/
def emailMatchAt (l : List Char) (i : Nat) : Option (List Char) :=
  let rest := l.drop i
  let lp := rest.takeWhile isEmailLocalChar
  if lp = [] then none
  else
    match (rest.drop lp.length).head? with
    | some c =>
      if c = '@' then
        let dom := (rest.drop (lp.length + 1)).takeWhile isEmailDomChar
        ((List.range dom.length).filterMap (fun j =>
          if dom.get? j = some '.' then
            let tld := (dom.drop (j + 1)).takeWhile isAlphaAZ
            if 2 ≤ tld.length then some (lp ++ '@' :: (dom.take j ++ '.' :: tld)) else none
          else none)).getLast?
      else none
    | none => none

/-- `re.search` of the email pattern: leftmost match. -/
def emailSearch (l : List Char) : Option (List Char) :=
  (List.range (l.length + 1)).findSome? (emailMatchAt l)

/-- The phone pattern's repeated class `[\d\-\s\(\)]`. -/
def isPhoneBody (c : Char) : Bool :=
  isDigit09 c || c.toNat = 45 || isSpacePy c || c.toNat = 40 || c.toNat = 41

/-- Greedy part of the phone pattern after the leading digit:
`[\d\-\s\(\)]{8,}\d` — backtracking selects the largest `k ≥ 8` body
characters such that the next character is a digit. -/
def phoneCore (s : List Char) : Option (List Char) :=
  let maxP := (s.takeWhile isPhoneBody).length
  (((List.range (maxP + 1)).filter (fun k =>
      8 ≤ k && (match s.get? k with | some c => isDigit09 c | none => false))).getLast?).map
    (fun k => s.take (k + 1))

/-- Single match of `(\+?\d[\d\-\s\(\)]{8,}\d)` at position `i`. -/
def phoneMatchAt (l : List Char) (i : Nat) : Option (List Char) :=
  match l.drop i with
  | [] => none
  | c :: tail =>
    if c = '+' then
      match tail with
      | d :: tail2 =>
        if isDigit09 d then (phoneCore tail2).map (fun m => c :: d :: m) else none
      | [] => none
    else if isDigit09 c then (phoneCore tail).map (fun m => c :: m)
    else none

/-- `re.search` of the phone pattern: leftmost match. -/
def phoneSearch (l : List Char) : Option (List Char) :=
  (List.range (l.length + 1)).findSome? (phoneMatchAt l)

/-- The name pattern's tail class `[A-Za-z\s\.\-']` (39 is the
apostrophe). -/
def isNameChar (c : Char) : Bool :=
  isAlphaAZ c || isSpacePy c || c.toNat = 46 || c.toNat = 45 || c.toNat = 39

/-- `re.fullmatch(r"[A-Za-z][A-Za-z\s\.\-']{2,60}", first)`: a leading
letter followed by 2 to 60 characters of the tail class. -/
def nameShaped (l : List Char) : Bool :=
  match l with
  | [] => false
  | c :: rest => isAlphaAZ c && 2 ≤ rest.length && rest.length ≤ 60 && rest.all isNameChar

/-- The contact record returned by `extract_contact_block` (a Python
dict with fixed keys name/email/phone/location). -/
structure Contact where
  name : String
  email : String
  phone : String
  location : String

/-- `extract_contact_block(resume_text)`: email and phone by regex
search, name from the first non-empty line when name-shaped with at most
5 words, location from the first of the first 25 lines that mentions
"location" and has a `:`. -/
def extract_contact_block (resume_text : String) : Contact :=
  let text := stripL resume_text.data
  let email := match emailSearch text with | some m => String.mk m | none => ""
  let phone := match phoneSearch text with | some m => String.mk (stripL m) | none => ""
  let lines := ((splitlinesL text).map stripL).filter (fun ln => ln ≠ [])
  let name := match lines.head? with
    | some first =>
      if nameShaped first && (splitWS first).length ≤ 5 then String.mk first else ""
    | none => ""
  let location := match (lines.take 25).find? (fun ln =>
      isSubstr "location".data (lowerL ln) && (ln.splitOn ':').length ≥ 2) with
    | some ln => String.mk (stripL (((ln.splitOn ':').get? 1).getD []))
    | none => ""
  ⟨name, email, phone, location⟩

/-- The education heading synonyms. -/
def eduHeadings : List String :=
  ["education", "academic background", "academics", "education & certifications",
   "qualification", "qualifications"]

/-- The stop heading synonyms. -/
def stopHeadings : List String :=
  ["experience", "professional experience", "work experience", "projects", "skills",
   "technical skills", "certifications", "summary", "interests", "hobbies",
   "achievements", "publications"]

/-- `re.sub(r"[^a-z\s&]", "", h).strip()`: delete characters other than
lowercase letters, whitespace and `&`, then strip (38 is `&`). -/
def headClean (l : List Char) : List Char :=
  stripL (l.filter (fun c => isLowerAZ c || isSpacePy c || c.toNat = 38))

/-- `re.sub(r"^\s*[-••]+\s*", "", ln)`: when the line starts with
optional whitespace followed by bullet characters (`-` or `•`, 8226),
remove that prefix, the bullet run and the following whitespace. -/
def bulletSub (l : List Char) : List Char :=
  let a := l.dropWhile isSpacePy
  match a.head? with
  | some c =>
    if c.toNat = 45 || c.toNat = 8226 then
      (a.dropWhile (fun d => d.toNat = 45 || d.toNat = 8226)).dropWhile isSpacePy
    else l
  | none => l

/-- The block-collection loop under an education heading: skip blank
lines, stop at a stop heading, collect stripped lines. -/
def collectEdu : List (List Char) → List (List Char)
  | [] => []
  | ln0 :: rest =>
    let ln := stripL ln0
    if ln = [] then collectEdu rest
    else if stopHeadings.contains (String.mk (headClean (lowerL ln))) then []
    else ln :: collectEdu rest

/-- The expansion of the degree alternation
`(b\.?tech|bachelor|master|m\.?s\.?|m\.?tech|mba|phd|b\.?sc|m\.?sc)`;
`re.search` succeeds when any expanded literal occurs as a substring. -/
def degreeVariants : List String :=
  ["btech", "b.tech", "bachelor", "master", "ms", "m.s", "ms.", "m.s.",
   "mtech", "m.tech", "mba", "phd", "bsc", "b.sc", "msc", "m.sc"]

/-- The university alternation `(university|college|institute|school)`. -/
def uniVariants : List String := ["university", "college", "institute", "school"]

/-- `re.search` of the degree words. -/
def hasDegreeWord (low : List Char) : Bool := degreeVariants.any (fun v => isSubstr v.data low)

/-- `re.search` of the university words. -/
def hasUniWord (low : List Char) : Bool := uniVariants.any (fun v => isSubstr v.data low)

/-- `re.search` of `(19\d{2}|20\d{2}|present|current)`. -/
def hasYearWord (low : List Char) : Bool :=
  ((List.range (low.length + 1)).any (fun i =>
    match low.drop i with
    | a :: b :: c :: d :: _ =>
      ((a = '1' && b = '9') || (a = '2' && b = '0')) && isDigit09 c && isDigit09 d
    | _ => false)) || isSubstr "present".data low || isSubstr "current".data low

/-- The fallback output loop: de-duplicate by lowercased line (recorded
before cleaning, as in the source), clean bullets, keep non-empty
results, stop once 4 lines are collected. -/
def takeEduAux : List (List Char) → Nat → List (List Char) → List (List Char)
  | _, _, [] => []
  | seen, cap, ln :: rest =>
    let key := lowerL ln
    if seen.contains key then takeEduAux seen cap rest
    else
      let c := stripL (bulletSub ln)
      if c = [] then takeEduAux (key :: seen) cap rest
      else if cap ≤ 1 then [c]
      else c :: takeEduAux (key :: seen) (cap - 1) rest

/-- `extract_education_section(resume_text)`: find an education heading
and collect its block (cleaned, at most 5 lines); otherwise fall back to
degree/university keyword lines (de-duplicated, cleaned, at most 4). -/
def extract_education_section (resume_text : String) : List String :=
  let raw := stripL resume_text.data
  if raw = [] then []
  else
    let lines := (splitlinesL raw).map rstripL
    let norm := lines.map (fun ln => lowerL (stripL ln))
    match norm.findIdx? (fun h => eduHeadings.contains (String.mk (headClean h))) with
    | some i =>
      ((((collectEdu (lines.drop (i + 1))).map (fun ln => stripL (bulletSub ln))).filter
        (fun ln => ln ≠ [])).take 5).map String.mk
    | none =>
      let cands := lines.filterMap (fun ln0 =>
        let l := stripL ln0
        if l = [] then none
        else if hasDegreeWord (lowerL l) || hasUniWord (lowerL l) then
          (if hasYearWord (lowerL l) then some l else some l)
        else none)
      (takeEduAux [] 4 cands).map String.mk

/-- `build_summary(job_title, matched, missing, jd_text)` (lines
225-247): title sentence; strengths from the sorted matched skills with
`"data engineering"` removed, first five; at most two business terms
from `SAFE_BUSINESS_TERMS` found word-bounded in the normalized job
description, sorted; at most two sorted missing skills that are in
`SAFE_ALWAYS_ADD`. -/
def build_summary (job_title : String) (matched missing : Finset String) (jd_text : String) :
    String :=
  let strong := (sortFin matched).filter (fun s => s ≠ "data engineering")
  let safe_missing := ((sortFin missing).filter (fun s => SAFE_ALWAYS_ADD.contains s)).take 2
  let t := (normalize jd_text).data
  let biz_terms := (sortStrs (SAFE_BUSINESS_TERMS.filter (fun w => wbFound w.data t))).take 2
  let parts :=
    [job_title ++ " with hands-on experience delivering JD-aligned work in a production environment."] ++
    (if strong ≠ [] then
      ["Strengths include " ++ String.intercalate ", " (strong.take 5) ++ "."] else []) ++
    (if biz_terms ≠ [] then
      ["Comfortable with " ++ String.intercalate ", " biz_terms ++ "."] else []) ++
    (if safe_missing ≠ [] then
      ["Additional alignment: " ++ String.intercalate ", " safe_missing ++ "."] else [])
  String.intercalate " " parts

/-- Modelled from the claim's words (C9), for comparison with
`build_summary`: the strengths sentence lists "the five
lexicographically-first matched skills" — with no exclusion. The
sentence templates and the other two components follow the code, on
which the claim is silent. -/
def summary_per_claim (job_title : String) (matched missing : Finset String) (jd_text : String) :
    String :=
  let firstFive := (sortFin matched).take 5
  let safe_missing := ((sortFin missing).filter (fun s => SAFE_ALWAYS_ADD.contains s)).take 2
  let t := (normalize jd_text).data
  let biz_terms := (sortStrs (SAFE_BUSINESS_TERMS.filter (fun w => wbFound w.data t))).take 2
  let parts :=
    [job_title ++ " with hands-on experience delivering JD-aligned work in a production environment."] ++
    (if firstFive ≠ [] then
      ["Strengths include " ++ String.intercalate ", " firstFive ++ "."] else []) ++
    (if biz_terms ≠ [] then
      ["Comfortable with " ++ String.intercalate ", " biz_terms ++ "."] else []) ++
    (if safe_missing ≠ [] then
      ["Additional alignment: " ++ String.intercalate ", " safe_missing ++ "."] else [])
  String.intercalate " " parts

/-- The amended form of claim C9: as `summary_per_claim`, but the
strengths are the five lexicographically-first matched skills other
than `"data engineering"`. -/
def summary_per_amended (job_title : String) (matched missing : Finset String)
    (jd_text : String) : String :=
  let firstFive := ((sortFin matched).filter (fun s => s ≠ "data engineering")).take 5
  let safe_missing := ((sortFin missing).filter (fun s => SAFE_ALWAYS_ADD.contains s)).take 2
  let t := (normalize jd_text).data
  let biz_terms := (sortStrs (SAFE_BUSINESS_TERMS.filter (fun w => wbFound w.data t))).take 2
  let parts :=
    [job_title ++ " with hands-on experience delivering JD-aligned work in a production environment."] ++
    (if firstFive ≠ [] then
      ["Strengths include " ++ String.intercalate ", " firstFive ++ "."] else []) ++
    (if biz_terms ≠ [] then
      ["Comfortable with " ++ String.intercalate ", " biz_terms ++ "."] else []) ++
    (if safe_missing ≠ [] then
      ["Additional alignment: " ++ String.intercalate ", " safe_missing ++ "."] else [])
  String.intercalate " " parts

/-- The capped order-preserving de-duplication of
`build_skills_section`. -/
def dedupeTakeAux : List String → Nat → List String → List String
  | _, _, [] => []
  | seen, cap, s :: rest =>
    if seen.contains s then dedupeTakeAux seen cap rest
    else if cap ≤ 1 then [s]
    else s :: dedupeTakeAux (s :: seen) (cap - 1) rest

/-- `build_skills_section(matched, missing, max_items)`: sorted matched
skills, then the safe missing skills, de-duplicated and capped
(`max_items` defaults to 18 at the call site). -/
def build_skills_section (matched missing : Finset String) (max_items : Nat) : String :=
  let safe_missing := (sortFin missing).filter (fun s => SAFE_ALWAYS_ADD.contains s)
  let ordered := sortFin matched ++ safe_missing
  String.intercalate ", " (dedupeTakeAux [] max_items ordered)

/-- `build_experience_bullets(job_title, matched, missing)`: the fixed
decision table of skill-triggered bullets, two generic fallbacks when
none fires, an optional safe-missing tools bullet, capped at 6. -/
def build_experience_bullets (job_title : String) (matched missing : Finset String) :
    List String :=
  let bullets :=
    (if "python" ∈ matched ∨ "sql" ∈ matched then
      ["Built and supported data workflows using Python and SQL, including validation and basic monitoring."]
     else []) ++
    (if "airflow" ∈ matched then
      ["Automated scheduled workflows with Airflow DAGs to improve reliability and repeatability of pipeline runs."]
     else []) ++
    (if "dbt" ∈ matched then
      ["Developed transformation models with dbt-style practices (staging to marts) and maintained reusable SQL logic."]
     else if "dbt" ∈ missing then
      ["Familiarity with dbt concepts for SQL-based transformations and modular modeling (staging to marts)."]
     else []) ++
    (if "data modeling" ∈ matched then
      ["Applied data modeling principles to produce analytics-ready datasets for reporting and downstream consumption."]
     else []) ++
    (if "data quality" ∈ matched then
      ["Implemented data quality checks (nulls, schema, freshness) to reduce defects and improve trust in datasets."]
     else []) ++
    (if "aws" ∈ matched then
      ["Worked with AWS services for data storage and processing while following access control and security basics."]
     else [])
  let bullets :=
    if bullets = [] then
      ["Delivered JD-aligned responsibilities with a focus on quality, documentation, and measurable business outcomes.",
       "Collaborated with cross-functional stakeholders to translate requirements into clear deliverables."]
    else bullets
  let safe_missing := ((sortFin missing).filter (fun s => SAFE_ALWAYS_ADD.contains s)).take 3
  let bullets := bullets ++
    (if safe_missing ≠ [] then
      ["Used tools aligned to the role including " ++ String.intercalate ", " safe_missing ++
        " for analysis and validation."]
     else [])
  bullets.take 6

/-- `build_projects_section(job_title, matched)`: one of two copilot
bullets, plus the pipeline bullet when a data-tooling skill matched,
capped at 2. -/
def build_projects_section (job_title : String) (matched : Finset String) : List String :=
  let projects :=
    (if "github actions" ∈ matched ∨ "git" ∈ matched then
      ["Job Match Copilot (GitHub Actions): Automates JD vs resume skill matching and produces tailored ATS resume output."]
     else
      ["Job Match Copilot: Automated JD vs resume matching to identify skill gaps and tailor resume content."]) ++
    (if "python" ∈ matched ∨ "sql" ∈ matched ∨ "airflow" ∈ matched ∨ "etl" ∈ matched ∨
        "elt" ∈ matched then
      ["Pipeline Mini-Project: Built a small ETL/ELT workflow using Python/SQL with basic validation and repeatable runs."]
     else [])
  projects.take 2

/-- The document-assembly part of `build_resume` (lines 322, 330-379),
as a function of the matched and missing sets: title guess, contact
extraction, summary, skills line, bullets, projects, education, then the
ordered labeled sections joined by newlines, stripped, with a final
newline. -/
def draftFrom (jd_text resume_text : String) (matched missing : Finset String) : String :=
  let job_title := guess_job_title jd_text
  let contact := extract_contact_block resume_text
  let summary := build_summary job_title matched missing jd_text
  let skills_line := build_skills_section matched missing 18
  let exp_bullets := build_experience_bullets job_title matched missing
  let projects := build_projects_section job_title matched
  let education_lines := extract_education_section resume_text
  let header_line := pyStrip (String.intercalate " | "
    (([job_title, contact.location]).filter (fun p => p ≠ "")))
  let contact_line := pyStrip (String.intercalate " | "
    (([contact.phone, contact.email]).filter (fun p => p ≠ "")))
  let out_lines :=
    (if contact.name ≠ "" then [contact.name] else []) ++
    (if header_line ≠ "" then [header_line] else []) ++
    (if contact_line ≠ "" then [contact_line] else []) ++
    ["", "SUMMARY", summary, "", "CORE SKILLS",
     (if skills_line ≠ "" then skills_line else ""), "", "EXPERIENCE"] ++
    exp_bullets.map (fun b => "- " ++ b) ++
    ["", "PROJECTS"] ++
    projects.map (fun p => "- " ++ p) ++
    ["", "EDUCATION"] ++
    (if education_lines ≠ [] then education_lines.map (fun e => "- " ++ e)
     else ["- Education details available upon request"])
  pyStrip (String.intercalate "\n" out_lines) ++ "\n"

/-- `build_resume(jd_text, resume_text, skills)` (lines 321-379),
embedded as written: known-skill extraction on both documents, matched
and missing by set intersection and difference, then the assembly. -/
def build_resume (jd_text resume_text : String) (skills : List String) : String :=
  let jd_found := extract_known_skills jd_text skills
  let resume_found := extract_known_skills resume_text skills
  let matched := jd_found ∩ resume_found
  let missing := jd_found \ resume_found
  let job_title := guess_job_title jd_text
  let contact := extract_contact_block resume_text
  let summary := build_summary job_title matched missing jd_text
  let skills_line := build_skills_section matched missing 18
  let exp_bullets := build_experience_bullets job_title matched missing
  let projects := build_projects_section job_title matched
  let education_lines := extract_education_section resume_text
  let header_line := pyStrip (String.intercalate " | "
    (([job_title, contact.location]).filter (fun p => p ≠ "")))
  let contact_line := pyStrip (String.intercalate " | "
    (([contact.phone, contact.email]).filter (fun p => p ≠ "")))
  let out_lines :=
    (if contact.name ≠ "" then [contact.name] else []) ++
    (if header_line ≠ "" then [header_line] else []) ++
    (if contact_line ≠ "" then [contact_line] else []) ++
    ["", "SUMMARY", summary, "", "CORE SKILLS",
     (if skills_line ≠ "" then skills_line else ""), "", "EXPERIENCE"] ++
    exp_bullets.map (fun b => "- " ++ b) ++
    ["", "PROJECTS"] ++
    projects.map (fun p => "- " ++ p) ++
    ["", "EDUCATION"] ++
    (if education_lines ≠ [] then education_lines.map (fun e => "- " ++ e)
     else ["- Education details available upon request"])
  pyStrip (String.intercalate "\n" out_lines) ++ "\n"

/-- `main()` (lines 381-393): read both inputs, abort with the
`SystemExit` message when either is empty, else load the vocabulary,
build the resume and write it. The result models the observable
outcome: `Except.error` is the fatal abort (no output file written),
`Except.ok` carries the content written to `out/tailored_resume.txt`. -/
def mainRun (jdFile resumeFile skillsFile : Option String) : Except String String :=
  let jd := read_text jdFile
  let resume := read_text resumeFile
  if jd = "" ∨ resume = "" then
    Except.error "Missing inputs. Ensure data/jd/jd.txt and data/resume/resume.txt exist."
  else
    Except.ok (build_resume jd resume (load_skills skillsFile))

end Tailor

/-! ### Normal-form lemmas for `normalize` (used by claim C3)

The output of `normalize` is lowercase kept-class text with isolated
single spaces and no leading/trailing space; on such text every pass of
`normalize` except the alias rewriting is the identity. -/

theorem mem_collapseAux {c : Char} {l : List Char} {b : Bool} (h : c ∈ collapseAux b l) :
    c = ' ' ∨ (c ∈ l ∧ isSpacePy c = false) := by
  induction l generalizing b with
  | nil => simp [collapseAux] at h
  | cons d rest ih =>
    by_cases hd : isSpacePy d = true
    · rw [collapseAux, if_pos hd] at h
      by_cases hb : b = true
      · rw [if_pos hb] at h
        rcases ih h with h1 | ⟨h2, h3⟩
        · exact Or.inl h1
        · exact Or.inr ⟨List.mem_cons_of_mem _ h2, h3⟩
      · rw [if_neg hb] at h
        rcases List.mem_cons.mp h with rfl | h'
        · exact Or.inl rfl
        · rcases ih h' with h1 | ⟨h2, h3⟩
          · exact Or.inl h1
          · exact Or.inr ⟨List.mem_cons_of_mem _ h2, h3⟩
    · rw [collapseAux, if_neg hd] at h
      rcases List.mem_cons.mp h with rfl | h'
      · exact Or.inr ⟨List.mem_cons_self _ _, Bool.not_eq_true _ ▸ hd⟩
      · rcases ih h' with h1 | ⟨h2, h3⟩
        · exact Or.inl h1
        · exact Or.inr ⟨List.mem_cons_of_mem _ h2, h3⟩

theorem head_collapseAux_true {l : List Char} {c : Char}
    (h : (collapseAux true l).head? = some c) : isSpacePy c = false := by
  induction l with
  | nil => simp [collapseAux] at h
  | cons d rest ih =>
    by_cases hd : isSpacePy d = true
    · rw [collapseAux, if_pos hd, if_pos rfl] at h
      exact ih h
    · rw [collapseAux, if_neg hd] at h
      simp only [List.head?_cons, Option.some.injEq] at h
      subst h
      exact Bool.not_eq_true _ ▸ hd

theorem chain_collapseAux (b : Bool) (l : List Char) :
    List.Chain' spacedR (collapseAux b l) := by
  induction l generalizing b with
  | nil => simp [collapseAux]
  | cons d rest ih =>
    by_cases hd : isSpacePy d = true
    · by_cases hb : b = true
      · rw [collapseAux, if_pos hd, if_pos hb]
        exact ih true
      · rw [collapseAux, if_pos hd, if_neg hb]
        refine List.chain'_cons'.mpr ⟨?_, ih true⟩
        intro y hy
        exact Or.inr (head_collapseAux_true (Option.mem_def.mp hy))
    · rw [collapseAux, if_neg hd]
      refine List.chain'_cons'.mpr ⟨?_, ih false⟩
      intro y _
      exact Or.inl (Bool.not_eq_true _ ▸ hd)

theorem collapseAux_fixed {l : List Char}
    (hOnly : ∀ c ∈ l, isSpacePy c = true → c = ' ')
    (hChain : List.Chain' spacedR l) :
    collapseAux false l = l ∧
      ((∀ c, l.head? = some c → isSpacePy c = false) → collapseAux true l = l) := by
  induction l with
  | nil => exact ⟨rfl, fun _ => rfl⟩
  | cons d rest ih =>
    have hOnly' : ∀ c ∈ rest, isSpacePy c = true → c = ' ' :=
      fun c hc => hOnly c (List.mem_cons_of_mem _ hc)
    obtain ⟨hhead, hcr⟩ := List.chain'_cons'.mp hChain
    obtain ⟨ih1, ih2⟩ := ih hOnly' hcr
    by_cases hd : isSpacePy d = true
    · have hd' : d = ' ' := hOnly d (List.mem_cons_self _ _) hd
      subst hd'
      have hresthead : ∀ c, rest.head? = some c → isSpacePy c = false := by
        intro c hc
        rcases hhead c (Option.mem_def.mpr hc) with h1 | h1
        · exact absurd h1 (by rw [hd]; simp)
        · exact h1
      constructor
      · rw [collapseAux, if_pos hd, if_neg (by simp), ih2 hresthead]
      · intro hh
        have := hh ' ' rfl
        rw [hd] at this
        exact absurd this (by simp)
    · have hfix : d :: collapseAux false rest = d :: rest := by rw [ih1]
      exact ⟨by rw [collapseAux, if_neg hd]; exact hfix,
        fun _ => by rw [collapseAux, if_neg hd]; exact hfix⟩

theorem dropWhile_dropWhile (p : Char → Bool) (l : List Char) :
    (l.dropWhile p).dropWhile p = l.dropWhile p := by
  induction l with
  | nil => rfl
  | cons c rest ih =>
    by_cases hc : p c = true
    · rw [List.dropWhile_cons, if_pos hc, ih]
    · rw [List.dropWhile_cons, if_neg hc, List.dropWhile_cons, if_neg hc]

theorem rstripL_cons_of_nonspace {c : Char} (hc : isSpacePy c = false) (l : List Char) :
    rstripL (c :: l) = c :: rstripL l := by
  unfold rstripL
  rw [List.reverse_cons, List.dropWhile_append]
  by_cases h : (l.reverse.dropWhile isSpacePy).isEmpty = true
  · rw [if_pos h]
    have hre : l.reverse.dropWhile isSpacePy = [] := List.isEmpty_iff.mp h
    simp [List.dropWhile, hc, hre]
  · rw [if_neg h]
    simp

theorem dropWhile_rstripL_comm (l : List Char) :
    (rstripL l).dropWhile isSpacePy = rstripL (l.dropWhile isSpacePy) := by
  induction l with
  | nil => rfl
  | cons c rest ih =>
    by_cases hc : isSpacePy c = true
    · have hstep : rstripL (c :: rest) =
          if (rest.reverse.dropWhile isSpacePy).isEmpty then ([] : List Char)
          else c :: rstripL rest := by
        unfold rstripL
        rw [List.reverse_cons, List.dropWhile_append]
        by_cases h : (rest.reverse.dropWhile isSpacePy).isEmpty = true
        · rw [if_pos h, if_pos h]
          simp [List.dropWhile, hc]
        · rw [if_neg h, if_neg h]
          simp
      rw [List.dropWhile_cons, if_pos hc, hstep]
      by_cases h : (rest.reverse.dropWhile isSpacePy).isEmpty = true
      · rw [if_pos h]
        have hre : rest.reverse.dropWhile isSpacePy = [] := List.isEmpty_iff.mp h
        have hnil : rstripL rest = [] := by unfold rstripL; rw [hre]; rfl
        rw [← ih, hnil]
      · rw [if_neg h, List.dropWhile_cons, if_pos hc, ih]
    · have hc' : isSpacePy c = false := Bool.not_eq_true _ ▸ hc
      rw [rstripL_cons_of_nonspace hc', List.dropWhile_cons, if_neg hc,
        List.dropWhile_cons, if_neg hc, rstripL_cons_of_nonspace hc']

theorem rstripL_rstripL (l : List Char) : rstripL (rstripL l) = rstripL l := by
  unfold rstripL
  rw [List.reverse_reverse, dropWhile_dropWhile]

theorem stripL_stripL (l : List Char) : stripL (stripL l) = stripL l := by
  show rstripL ((rstripL (l.dropWhile isSpacePy)).dropWhile isSpacePy) = _
  rw [dropWhile_rstripL_comm, dropWhile_dropWhile, rstripL_rstripL]
  rfl

theorem mem_stripL {c : Char} {l : List Char} (h : c ∈ stripL l) : c ∈ l := by
  unfold stripL at h
  rw [List.mem_reverse] at h
  have h2 := (List.dropWhile_sublist _).subset h
  rw [List.mem_reverse] at h2
  exact (List.dropWhile_sublist _).subset h2

theorem chain_stripL {l : List Char} (h : List.Chain' spacedR l) :
    List.Chain' spacedR (stripL l) := by
  have hsuf : ∀ m : List Char, m.dropWhile isSpacePy <:+ m :=
    fun _ => List.dropWhile_suffix _
  have h1 : List.Chain' spacedR (l.dropWhile isSpacePy) := h.suffix (hsuf l)
  have h2 : List.Chain' spacedR (l.dropWhile isSpacePy).reverse :=
    List.chain'_reverse.mpr (h1.imp fun _ _ hab => hab.symm)
  have h3 : List.Chain' spacedR ((l.dropWhile isSpacePy).reverse.dropWhile isSpacePy) :=
    h2.suffix (hsuf _)
  exact List.chain'_reverse.mpr (h3.imp fun _ _ hab => hab.symm)

theorem mem_filterChars {c : Char} {l : List Char} (h : c ∈ filterChars l) :
    c = ' ' ∨ keepChar c = true := by
  unfold filterChars at h
  rcases List.mem_map.mp h with ⟨d, _, hd⟩
  by_cases hk : keepChar d = true
  · rw [if_pos hk] at hd
    subst hd
    exact Or.inr hk
  · rw [if_neg hk] at hd
    exact Or.inl hd.symm

theorem good_char_normalizeL {c : Char} {l : List Char}
    (h : c ∈ ExtractSkills.normalizeL l) :
    c = ' ' ∨ (keepChar c = true ∧ isSpacePy c = false) := by
  unfold ExtractSkills.normalizeL collapseWS at h
  have h1 := mem_stripL h
  rcases mem_collapseAux h1 with h2 | ⟨h3, h4⟩
  · exact Or.inl h2
  · rcases mem_filterChars h3 with h5 | h5
    · exact Or.inl h5
    · exact Or.inr ⟨h5, h4⟩

theorem toLower_fixed_of_good {c : Char}
    (h : c = ' ' ∨ (keepChar c = true ∧ isSpacePy c = false)) :
    Char.toLower c = c := by
  have hlow : c.toNat < 65 ∨ 90 < c.toNat := by
    rcases h with rfl | ⟨hk, _⟩
    · exact Or.inl (by decide)
    · simp only [keepChar, isLowerAZ, isDigit09, isSpacePy, isKeptSym, Bool.or_eq_true,
        Bool.and_eq_true, decide_eq_true_eq] at hk
      omega
  rw [Char.toLower]
  rw [if_neg (by omega)]

theorem lowerL_fixed {l : List Char}
    (h : ∀ c ∈ l, c = ' ' ∨ (keepChar c = true ∧ isSpacePy c = false)) :
    lowerL l = l := by
  unfold lowerL
  have heq : ∀ a ∈ l, Char.toLower a = id a := fun a ha => toLower_fixed_of_good (h a ha)
  rw [List.map_congr_left heq, List.map_id]

theorem filterChars_fixed {l : List Char}
    (h : ∀ c ∈ l, c = ' ' ∨ (keepChar c = true ∧ isSpacePy c = false)) :
    filterChars l = l := by
  unfold filterChars
  have heq : ∀ a ∈ l, (if keepChar a then a else ' ') = id a := by
    intro a ha
    rcases h a ha with rfl | ⟨hk, _⟩
    · rw [if_pos (by decide)]
      rfl
    · rw [if_pos hk]
      rfl
  rw [List.map_congr_left heq, List.map_id]

theorem onlyPlain_of_good {l : List Char}
    (h : ∀ c ∈ l, c = ' ' ∨ (keepChar c = true ∧ isSpacePy c = false)) :
    ∀ c ∈ l, isSpacePy c = true → c = ' ' := by
  intro c hc hs
  rcases h c hc with rfl | ⟨_, hns⟩
  · rfl
  · rw [hs] at hns
    exact absurd hns (by simp)

theorem normalizeL_eq (l : List Char) : ExtractSkills.normalizeL l =
    stripL (collapseWS (filterChars (ExtractSkills.aliasAllL (lowerL l)))) := rfl

theorem collapseWS_eq (l : List Char) : collapseWS l = collapseAux false l := rfl

theorem normalize_eq_mk (s : String) :
    ExtractSkills.normalize s = String.mk (ExtractSkills.normalizeL s.data) := rfl

theorem aliasAll_eq_mk (s : String) :
    ExtractSkills.aliasAll s = String.mk (ExtractSkills.aliasAllL s.data) := rfl

theorem normalize_data (s : String) :
    (ExtractSkills.normalize s).data = ExtractSkills.normalizeL s.data := by
  rw [normalize_eq_mk]

theorem aliasAll_data (s : String) :
    (ExtractSkills.aliasAll s).data = ExtractSkills.aliasAllL s.data := by
  rw [aliasAll_eq_mk]

attribute [irreducible] ExtractSkills.aliasAllL

theorem chain_normalizeL (l : List Char) :
    List.Chain' spacedR (ExtractSkills.normalizeL l) := by
  rw [normalizeL_eq, collapseWS_eq]
  generalize filterChars (ExtractSkills.aliasAllL (lowerL l)) = X
  exact chain_stripL (chain_collapseAux false X)

theorem stripL_normalizeL (l : List Char) :
    stripL (ExtractSkills.normalizeL l) = ExtractSkills.normalizeL l := by
  unfold ExtractSkills.normalizeL
  exact stripL_stripL _

/-! ### Claim theorems -/

/-- C3 (amended): `normalize` is idempotent on every input whose
normalization the alias-replacement pass leaves unchanged (in
particular whenever `normalize x` contains no alias key); full
idempotence fails because character filtering can create new alias-key
occurrences. -/
theorem claim3_amended (x : String)
    (h : ExtractSkills.aliasAll (ExtractSkills.normalize x) = ExtractSkills.normalize x) :
    ExtractSkills.normalize (ExtractSkills.normalize x) = ExtractSkills.normalize x := by
  have hdata : ExtractSkills.aliasAllL (ExtractSkills.normalizeL x.data) =
      ExtractSkills.normalizeL x.data := by
    have h2 := congrArg String.data h
    rw [aliasAll_data, normalize_data] at h2
    exact h2
  have hgood : ∀ c ∈ ExtractSkills.normalizeL x.data,
      c = ' ' ∨ (keepChar c = true ∧ isSpacePy c = false) :=
    fun _ hc => good_char_normalizeL hc
  have key : ExtractSkills.normalizeL (ExtractSkills.normalizeL x.data) =
      ExtractSkills.normalizeL x.data :=
    calc ExtractSkills.normalizeL (ExtractSkills.normalizeL x.data)
        = stripL (collapseWS (filterChars (ExtractSkills.aliasAllL
            (lowerL (ExtractSkills.normalizeL x.data))))) := normalizeL_eq _
      _ = stripL (collapseWS (filterChars (ExtractSkills.aliasAllL
            (ExtractSkills.normalizeL x.data)))) :=
          congrArg (fun t => stripL (collapseWS (filterChars (ExtractSkills.aliasAllL t))))
            (lowerL_fixed hgood)
      _ = stripL (collapseWS (filterChars (ExtractSkills.normalizeL x.data))) :=
          congrArg (fun t => stripL (collapseWS (filterChars t))) hdata
      _ = stripL (collapseWS (ExtractSkills.normalizeL x.data)) :=
          congrArg (fun t => stripL (collapseWS t)) (filterChars_fixed hgood)
      _ = stripL (collapseAux false (ExtractSkills.normalizeL x.data)) :=
          congrArg stripL (collapseWS_eq _)
      _ = stripL (ExtractSkills.normalizeL x.data) :=
          congrArg stripL
            ((collapseAux_fixed (onlyPlain_of_good hgood) (chain_normalizeL x.data)).1)
      _ = ExtractSkills.normalizeL x.data := stripL_normalizeL x.data
  calc ExtractSkills.normalize (ExtractSkills.normalize x)
      = String.mk (ExtractSkills.normalizeL (ExtractSkills.normalize x).data) :=
        normalize_eq_mk _
    _ = String.mk (ExtractSkills.normalizeL (ExtractSkills.normalizeL x.data)) :=
        congrArg (fun t => String.mk (ExtractSkills.normalizeL t)) (normalize_data x)
    _ = String.mk (ExtractSkills.normalizeL x.data) := congrArg String.mk key
    _ = ExtractSkills.normalize x := (normalize_eq_mk x).symm

set_option allowUnsafeReducibility true in
attribute [semireducible] ExtractSkills.aliasAllL

set_option maxHeartbeats 12000000 in
/-- C3 (counterexample): `normalize` is not idempotent. Filtering the
comma of "ci,cd" to a space creates the alias key "ci cd", which only
the second pass rewrites to "ci/cd". -/
theorem claim3_counterexample :
    ExtractSkills.normalize (ExtractSkills.normalize "ci,cd") ≠
      ExtractSkills.normalize "ci,cd" := by decide

set_option maxHeartbeats 12000000 in
/-- Witness for the amended C3 at a concrete input on which the alias
pass is inert. -/
theorem claim3_witness :
    ExtractSkills.aliasAll (ExtractSkills.normalize "Hello World") =
      ExtractSkills.normalize "Hello World" ∧
    ExtractSkills.normalize (ExtractSkills.normalize "Hello World") =
      ExtractSkills.normalize "Hello World" :=
  ⟨by decide, claim3_amended "Hello World" (by decide)⟩

/-- C1: for every pair of documents and vocabulary, the comparator's
match percentage equals exactly 0 when `jd_skills` is empty and
`100 * |matched| / |jd_skills|` otherwise, and always lies in
`[0, 100]`. -/
theorem claim1_match_percent (jd resume : String) (skills : List String) :
    ExtractSkills.match_percent jd resume skills =
      (if ExtractSkills.jd_skills jd resume skills = ∅ then 0
       else 100 * ((ExtractSkills.matched jd resume skills).card : ℚ) /
         ((ExtractSkills.jd_skills jd resume skills).card : ℚ)) ∧
    0 ≤ ExtractSkills.match_percent jd resume skills ∧
    ExtractSkills.match_percent jd resume skills ≤ 100 := by
  have hsub : ExtractSkills.matched jd resume skills ⊆ ExtractSkills.jd_skills jd resume skills :=
    Finset.inter_subset_left
  have hcard : (ExtractSkills.matched jd resume skills).card ≤
      (ExtractSkills.jd_skills jd resume skills).card := Finset.card_le_card hsub
  refine ⟨?_, ?_, ?_⟩
  · unfold ExtractSkills.match_percent
    split
    · rfl
    · ring
  · unfold ExtractSkills.match_percent
    split
    · exact le_refl 0
    · positivity
  · unfold ExtractSkills.match_percent
    split
    · norm_num
    · rename_i hne
      have hpos : 0 < ((ExtractSkills.jd_skills jd resume skills).card : ℚ) := by
        have : 0 < (ExtractSkills.jd_skills jd resume skills).card :=
          Finset.card_pos.mpr (Finset.nonempty_iff_ne_empty.mpr hne)
        exact_mod_cast this
      have hdiv : ((ExtractSkills.matched jd resume skills).card : ℚ) /
          ((ExtractSkills.jd_skills jd resume skills).card : ℚ) ≤ 1 :=
        (div_le_one hpos).mpr (by exact_mod_cast hcard)
      calc ((ExtractSkills.matched jd resume skills).card : ℚ) /
            ((ExtractSkills.jd_skills jd resume skills).card : ℚ) * 100 ≤ 1 * 100 :=
          mul_le_mul_of_nonneg_right hdiv (by norm_num)
        _ = 100 := by norm_num

/-- C2: `matched` and `missing` partition `jd_skills` exactly:
their union is `jd_skills` and their intersection is empty. -/
theorem claim2_partition (jd resume : String) (skills : List String) :
    ExtractSkills.matched jd resume skills ∪ ExtractSkills.missing jd resume skills =
      ExtractSkills.jd_skills jd resume skills ∧
    ExtractSkills.matched jd resume skills ∩ ExtractSkills.missing jd resume skills = ∅ := by
  constructor
  · ext a
    simp only [ExtractSkills.matched, ExtractSkills.missing, Finset.mem_union,
      Finset.mem_inter, Finset.mem_sdiff]
    constructor
    · rintro (⟨h, _⟩ | ⟨h, _⟩) <;> exact h
    · intro h
      by_cases hr : a ∈ ExtractSkills.resume_skills jd resume skills
      · exact Or.inl ⟨h, hr⟩
      · exact Or.inr ⟨h, hr⟩
  · ext a
    simp only [ExtractSkills.matched, ExtractSkills.missing, Finset.mem_inter,
      Finset.mem_sdiff, Finset.not_mem_empty, iff_false]
    rintro ⟨⟨_, hr⟩, _, hnr⟩
    exact hnr hr

/-- C4: word-boundary matching rejects partial-word hits: with the bare
entry "go", the matcher (in both source files) does not find "go" in
"going to work" and does find it in "go build it". -/
theorem claim4_word_boundary :
    "go" ∉ ExtractSkills.extract_known_skills "going to work" ["go"] ∧
    "go" ∈ ExtractSkills.extract_known_skills "go build it" ["go"] ∧
    "go" ∉ Tailor.extract_known_skills "going to work" ["go"] ∧
    "go" ∈ Tailor.extract_known_skills "go build it" ["go"] := by
  refine ⟨by decide, by decide, by decide, by decide⟩

/-- C5: symbol-bearing entries match by plain substring containment:
with the entry "node.js", the matcher (in both source files) finds it in
"we use node.js daily" and not in "we use nodejs daily". -/
theorem claim5_containment :
    "node.js" ∈ ExtractSkills.extract_known_skills "we use node.js daily" ["node.js"] ∧
    "node.js" ∉ ExtractSkills.extract_known_skills "we use nodejs daily" ["node.js"] ∧
    "node.js" ∈ Tailor.extract_known_skills "we use node.js daily" ["node.js"] ∧
    "node.js" ∉ Tailor.extract_known_skills "we use nodejs daily" ["node.js"] := by
  refine ⟨by decide, by decide, by decide, by decide⟩

/-- C6: known-skill matching is monotonic in the vocabulary: appending
an entry never removes an existing match. -/
theorem claim6_vocab_monotone (text : String) (skills : List String) (e : String) :
    ExtractSkills.extract_known_skills text skills ⊆
      ExtractSkills.extract_known_skills text (skills ++ [e]) := by
  intro a ha
  simp only [ExtractSkills.extract_known_skills, List.mem_toFinset, List.mem_filter,
    List.mem_append, List.mem_singleton] at ha ⊢
  exact ⟨Or.inl ha.1, ha.2⟩

/-- C7 (evaluation at the failing input): on the text "Deployed via AWS
S3 and EC2 using OAuth" the dynamic detector returns exactly
`{"s3", "ec2", "aws"}` — so "s3" and "ec2" are found, no stopword or US
state word is included, but "oauth" is NOT included, contradicting the
claim and the function's own docstring ("Examples we want: S3, EC2,
OAuth") and rule-3 comment ("Common all-caps acronyms (JWT, OAuth,
...)"); `[A-Z]{2,6}\b` cannot match the mixed-case "OAuth". -/
theorem claim7_dynamic_tokens_eval :
    ExtractSkills.extract_dynamic_tech_tokens "Deployed via AWS S3 and EC2 using OAuth" =
      {"s3", "ec2", "aws"} ∧
    "oauth" ∉ ExtractSkills.extract_dynamic_tech_tokens "Deployed via AWS S3 and EC2 using OAuth" ∧
    (∀ t ∈ ExtractSkills.extract_dynamic_tech_tokens "Deployed via AWS S3 and EC2 using OAuth",
      ExtractSkills.STOPWORDS.contains t = false ∧ ExtractSkills.US_STATES.contains t = false) := by
  refine ⟨by decide, by decide, by decide⟩

/-- C8: when the resume input is empty after stripping and the job
description is non-empty, the tailoring entry point aborts with the
fatal `SystemExit` message before building the resume, and no output is
written (`Except.error`, no `ok` content). -/
theorem claim8_missing_resume_aborts (jdFile resumeFile skillsFile : Option String)
    (hres : Tailor.read_text resumeFile = "")
    (hjd : Tailor.read_text jdFile ≠ "") :
    Tailor.mainRun jdFile resumeFile skillsFile =
      Except.error "Missing inputs. Ensure data/jd/jd.txt and data/resume/resume.txt exist." := by
  unfold Tailor.mainRun
  rw [if_pos (Or.inr hres)]

/-- Witness for C8 at a concrete whitespace-only resume file and
non-empty job description. -/
theorem claim8_witness :
    Tailor.read_text (some "   \n  ") = "" ∧
    Tailor.read_text (some "We are hiring a Python developer") ≠ "" ∧
    Tailor.mainRun (some "We are hiring a Python developer") (some "   \n  ") (some "python\nsql") =
      Except.error "Missing inputs. Ensure data/jd/jd.txt and data/resume/resume.txt exist." :=
  ⟨by decide, by decide,
    claim8_missing_resume_aborts (some "We are hiring a Python developer") (some "   \n  ")
      (some "python\nsql") (by decide) (by decide)⟩

/-- C9 (counterexample): with `matched = {"data engineering"}` the
summary produced by the code omits the lexicographically-first matched
skill (the code filters out `"data engineering"`), so the summary is
not built as the claim words it. -/
theorem claim9_counterexample :
    Tailor.build_summary "Professional" {"data engineering"} ∅ "" ≠
      Tailor.summary_per_claim "Professional" {"data engineering"} ∅ "" := by
  have h1 : sortFin ({"data engineering"} : Finset String) = ["data engineering"] :=
    Finset.sort_singleton _ _
  have h2 : sortFin (∅ : Finset String) = [] := Finset.sort_empty _
  simp only [Tailor.build_summary, Tailor.summary_per_claim, h1, h2]
  decide

/-- C9 (amended): the summary sentence is built from the job title, the
five lexicographically-first matched skills other than
`"data engineering"`, at most two safe missing skills from the fixed
allow-list, and up to two business-context terms from the fixed list
found word-bounded in the job description. -/
theorem claim9_amended_summary (job_title : String) (matched missing : Finset String)
    (jd_text : String) :
    Tailor.build_summary job_title matched missing jd_text =
      Tailor.summary_per_amended job_title matched missing jd_text := by
  unfold Tailor.build_summary Tailor.summary_per_amended
  cases h : (sortFin matched).filter (fun s => s ≠ "data engineering") with
  | nil => simp [h]
  | cons a l => simp [h]

/-- C10: the matched and missing sets used to build the tailored draft
come solely from vocabulary-based known-skill extraction
(`matched = known(jd) ∩ known(resume)`, `missing = known(jd) −
known(resume)`): `build_resume` is exactly the assembly `draftFrom`
applied to those two sets, and the embedded `build_resume` (like the
source lines 321-379) contains no reference to the dynamic tech-token
detector, so the detector never affects the draft. -/
theorem claim10_draft_from_known_only (jd_text resume_text : String) (skills : List String) :
    Tailor.build_resume jd_text resume_text skills =
      Tailor.draftFrom jd_text resume_text
        (Tailor.extract_known_skills jd_text skills ∩
          Tailor.extract_known_skills resume_text skills)
        (Tailor.extract_known_skills jd_text skills \
          Tailor.extract_known_skills resume_text skills) := rfl

end JobMatch
